import Mathlib

/-!
# Event persistence layer of `offen` (`server/persistence/events.go`)

A shallow embedding of `Insert`, `Query`, `Purge`, `GetDeletedEvents` and
`hashUserIDForAccounts`, followed by theorems about them.

Conventions of the embedding

* A Go `error` is an `Option String` (`none` is `nil`); `fmt.Errorf` with `%w`
  or `%v` is string concatenation.
* A Go slice or map that may be `nil` is an `Option`; `some []` is the empty,
  non-nil value.
* The data access layer `p.dal` is an interface: it is a record of functions
  over an abstract store `σ`.  Lookups read the store, `CreateEvent` and
  `DeleteEvents` return the next store.
* Every operation returns, next to its Go return values, the store it leaves
  behind and the list of calls it made on the data access layer, each with a
  flag telling whether that call returned an error.
* The goroutines of `hashUserIDForAccounts` send on an unbuffered channel; which
  pending sender the next receive is paired with is decided by a schedule
  (`List Nat`) that is a parameter of the model.  A receive with no pending
  sender blocks forever: the model returns `none`.
-/

namespace Persistence

/-! ## Data model -/

/-- An `Account` as far as this file reads it: identifier, salt and status. -/
structure Account where
  AccountID : String
  UserSalt : String
  Retired : Bool
  deriving DecidableEq, Repr

/-- A `Secret`: the record kept for a hashed user identifier. -/
structure Secret where
  SecretID : String
  EncryptedSecret : String
  deriving DecidableEq, Repr

/-- An `Event` as built by `Insert` (`SecretID` is a `*string`). -/
structure Event where
  AccountID : String
  SecretID : Option String
  Payload : String
  EventID : String
  deriving DecidableEq, Repr

/-- An `EventResult` as built by `Query`. -/
structure EventResult where
  AccountID : String
  Payload : String
  EventID : String
  deriving DecidableEq, Repr

/-- The `Query` struct: filters for `persistenceLayer.Query`. -/
structure Query where
  UserID : String
  Since : String
  deriving DecidableEq, Repr

/-- The three queries this file passes to `FindEvents`. -/
inductive FindEventsQuery where
  | FindEventsQueryForSecretIDs (SecretIDs : List String) (Since : String)
  | FindEventsQueryByEventIDs (ids : List String)
  | FindEventsQueryExclusion (EventIDs : List String) (SecretIDs : List String)
  deriving DecidableEq, Repr

/-- The data access layer `p.dal`, over a store of type `σ`. `FindAccount` is
called with `FindAccountQueryActiveByID`, `FindAccounts` with
`FindAccountsQueryAllAccounts`, `FindSecret` with `FindSecretQueryBySecretID`
and `DeleteEvents` with `DeleteEventsQueryBySecretIDs`. -/
structure DataAccessLayer (σ : Type) where
  FindAccount : σ → String → Except String Account
  FindAccounts : σ → Except String (List Account)
  FindSecret : σ → String → Except String Secret
  CreateEvent : σ → Event → Option String × σ
  FindEvents : σ → FindEventsQuery → Except String (List Event)
  DeleteEvents : σ → List String → Except String Nat × σ

/-- A call made on the data access layer. -/
inductive DalCall where
  | FindAccount (accountID : String)
  | FindAccounts
  | FindSecret (secretID : String)
  | CreateEvent (event : Event)
  | FindEvents (query : FindEventsQuery)
  | DeleteEvents (secretIDs : List String)
  deriving DecidableEq, Repr

/-- Whether a call on the data access layer returns an error at store `s`. -/
def DataAccessLayer.failed {σ : Type} (dal : DataAccessLayer σ) (s : σ) : DalCall → Bool
  | .FindAccount accountID =>
    match dal.FindAccount s accountID with
    | .error _ => true
    | .ok _ => false
  | .FindAccounts =>
    match dal.FindAccounts s with
    | .error _ => true
    | .ok _ => false
  | .FindSecret secretID =>
    match dal.FindSecret s secretID with
    | .error _ => true
    | .ok _ => false
  | .CreateEvent event => (dal.CreateEvent s event).1.isSome
  | .FindEvents query =>
    match dal.FindEvents s query with
    | .error _ => true
    | .ok _ => false
  | .DeleteEvents secretIDs =>
    match (dal.DeleteEvents s secretIDs).1 with
    | .error _ => true
    | .ok _ => false

/-- What an operation leaves behind: its Go return values, the store, and the
calls it made, each paired with `true` when the call returned an error. -/
structure Ret (σ α : Type) where
  value : α
  store : σ
  calls : List (DalCall × Bool)

/-- The `persistenceLayer`: the data access layer, and `Account.HashUserID`,
which is declared outside this file. -/
structure persistenceLayer (σ : Type) where
  dal : DataAccessLayer σ
  HashUserID : Account → String → String

/-! ## `map[string][]EventResult` -/

/-- A Go map from account identifiers to slices, as an association list with
one entry per key. -/
abbrev ResultMap := List (String × List EventResult)

/-- Reading `out[k]`: the zero value (an empty slice) when the key is absent. -/
def ResultMap.get : ResultMap → String → List EventResult
  | [], _ => []
  | (k', v) :: rest, k => if k' = k then v else ResultMap.get rest k

/-- Writing `out[k] = v`. -/
def ResultMap.set : ResultMap → String → List EventResult → ResultMap
  | [], k, v => [(k, v)]
  | (k', v') :: rest, k, v =>
    if k' = k then (k, v) :: rest else (k', v') :: ResultMap.set rest k v

/-- The keys present in the map. -/
def ResultMap.keys (m : ResultMap) : List String := m.map Prod.fst

/-- The number of results held under all entries of the map. -/
def ResultMap.size (m : ResultMap) : Nat := (m.map (fun kv => kv.2.length)).sum

/-! ## `hashUserIDForAccounts` -/

/-- The receive loop `for result := range hashes`: `pending` holds the values
of the goroutines that have not been received from yet, the head of `sched`
picks which of them the next receive gets, and the loop leaves as soon as
`len(hashedUserIDs) == total`. -/
def receiveLoop (total : Nat) :
    Nat → List Nat → List String → List String → Option (List String)
  | 0, _, _, _ => none
  | fuel + 1, sched, pending, hashedUserIDs =>
    if h : pending = [] then none
    else
      let k := sched.headD 0 % pending.length
      let result := pending.get ⟨k, Nat.mod_lt _ (List.length_pos.mpr h)⟩
      let hashedUserIDs := hashedUserIDs ++ [result]
      if hashedUserIDs.length = total then some hashedUserIDs
      else receiveLoop total fuel sched.tail (pending.eraseIdx k) hashedUserIDs

/-- `hashUserIDForAccounts(userID, accounts)`: one goroutine per account. -/
def hashUserIDForAccounts (HashUserID : Account → String → String)
    (sched : List Nat) (userID : String) (accounts : List Account) :
    Option (List String) :=
  if accounts.length = 0 then some []
  else
    receiveLoop accounts.length accounts.length sched
      (accounts.map (fun account => HashUserID account userID)) []

/-! ## `Insert` -/

/-- `Insert(userID, accountID, payload)`. `eventID` is what `newEventID()`
returned on this call. -/
def persistenceLayer.Insert {σ : Type} (p : persistenceLayer σ)
    (eventID : Except String String) (userID accountID payload : String)
    (s : σ) : Ret σ (Option String) :=
  match eventID with
  | .error err =>
    ⟨some ("persistence: error creating new event identifier: " ++ err), s, []⟩
  | .ok eventID =>
    match p.dal.FindAccount s accountID with
    | .error err =>
      ⟨some ("persistence: error looking up matching account for given event: " ++ err),
        s, [(.FindAccount accountID, true)]⟩
    | .ok account =>
      let hashedUserID : Option String :=
        if userID ≠ "" then some (p.HashUserID account userID) else none
      let event : Event :=
        { AccountID := accountID, SecretID := hashedUserID,
          Payload := payload, EventID := eventID }
      match hashedUserID with
      | some hash =>
        match p.dal.FindSecret s hash with
        | .error err =>
          ⟨some ("persistence: error finding secret for given event: " ++ err), s,
            [(.FindAccount accountID, false), (.FindSecret hash, true)]⟩
        | .ok _ =>
          match p.dal.CreateEvent s event with
          | (some insertErr, s') =>
            ⟨some ("persistence: error inserting event: " ++ insertErr), s',
              [(.FindAccount accountID, false), (.FindSecret hash, false),
                (.CreateEvent event, true)]⟩
          | (none, s') =>
            ⟨none, s',
              [(.FindAccount accountID, false), (.FindSecret hash, false),
                (.CreateEvent event, false)]⟩
      | none =>
        match p.dal.CreateEvent s event with
        | (some insertErr, s') =>
          ⟨some ("persistence: error inserting event: " ++ insertErr), s',
            [(.FindAccount accountID, false), (.CreateEvent event, true)]⟩
        | (none, s') =>
          ⟨none, s', [(.FindAccount accountID, false), (.CreateEvent event, false)]⟩

/-! ## `Query` -/

/-- The conversion done in the loop body of `Query`. -/
def toEventResult (m : Event) : EventResult :=
  { AccountID := m.AccountID, Payload := m.Payload, EventID := m.EventID }

/-- The loop `for _, match := range results` of `Query`, from the map `out`. -/
def groupLoop : List Event → ResultMap → ResultMap
  | [], out => out
  | m :: rest, out =>
    groupLoop rest (out.set m.AccountID (out.get m.AccountID ++ [toEventResult m]))

/-- `Query(query)`: returns `(map, error)`. -/
def persistenceLayer.Query {σ : Type} (p : persistenceLayer σ)
    (sched : List Nat) (query : Query) (s : σ) :
    Option (Ret σ (Option ResultMap × Option String)) :=
  match p.dal.FindAccounts s with
  | .error err =>
    some ⟨(none, some ("persistence: error looking up all accounts: " ++ err)), s,
      [(.FindAccounts, true)]⟩
  | .ok accounts =>
    match hashUserIDForAccounts p.HashUserID sched query.UserID accounts with
    | none => none
    | some secretIDs =>
      let q := FindEventsQuery.FindEventsQueryForSecretIDs secretIDs query.Since
      match p.dal.FindEvents s q with
      | .error err =>
        some ⟨(none, some ("persistence: error looking up events: " ++ err)), s,
          [(.FindAccounts, false), (.FindEvents q, true)]⟩
      | .ok results =>
        some ⟨(some (groupLoop results []), none), s,
          [(.FindAccounts, false), (.FindEvents q, false)]⟩

/-! ## `Purge` -/

/-- `Purge(userID)`. -/
def persistenceLayer.Purge {σ : Type} (p : persistenceLayer σ)
    (sched : List Nat) (userID : String) (s : σ) :
    Option (Ret σ (Option String)) :=
  match p.dal.FindAccounts s with
  | .error err =>
    some ⟨some ("persistence: error retrieving available accounts: " ++ err), s,
      [(.FindAccounts, true)]⟩
  | .ok accounts =>
    match hashUserIDForAccounts p.HashUserID sched userID accounts with
    | none => none
    | some hashedUserIDs =>
      match p.dal.DeleteEvents s hashedUserIDs with
      | (.error err, s') =>
        some ⟨some ("persistence: error purging events: " ++ err), s',
          [(.FindAccounts, false), (.DeleteEvents hashedUserIDs, true)]⟩
      | (.ok _, s') =>
        some ⟨none, s', [(.FindAccounts, false), (.DeleteEvents hashedUserIDs, false)]⟩

/-! ## `GetDeletedEvents` -/

/-- The inner loop `for _, ev := range existing`: `true` when it leaves with
`continue outer`. -/
def continuesOuter (id : String) : List Event → Bool
  | [] => false
  | ev :: rest => if id = ev.EventID then true else continuesOuter id rest

/-- The labelled loop `outer: for _, id := range ids`. -/
def outerLoop (existing : List Event) : List String → List String → List String
  | [], deletedIds => deletedIds
  | id :: rest, deletedIds =>
    if continuesOuter id existing then outerLoop existing rest deletedIds
    else outerLoop existing rest (deletedIds ++ [id])

/-- The loop `for _, evt := range foreign`. -/
def foreignLoop : List Event → List String → List String
  | [], deletedIds => deletedIds
  | evt :: rest, deletedIds => foreignLoop rest (deletedIds ++ [evt.EventID])

/-- `GetDeletedEvents(ids, userID)`: returns `([]string, error)`. -/
def persistenceLayer.GetDeletedEvents {σ : Type} (p : persistenceLayer σ)
    (sched : List Nat) (ids : List String) (userID : String) (s : σ) :
    Option (Ret σ (Option (List String) × Option String)) :=
  let q₁ := FindEventsQuery.FindEventsQueryByEventIDs ids
  match p.dal.FindEvents s q₁ with
  | .error err =>
    some ⟨(none, some ("persistence: error looking up events: " ++ err)), s,
      [(.FindEvents q₁, true)]⟩
  | .ok existing =>
    let deletedIds := outerLoop existing ids []
    if userID ≠ "" then
      match p.dal.FindAccounts s with
      | .error err =>
        some ⟨(none, some ("persistence: error looking up all accounts: " ++ err)), s,
          [(.FindEvents q₁, false), (.FindAccounts, true)]⟩
      | .ok accounts =>
        match hashUserIDForAccounts p.HashUserID sched userID accounts with
        | none => none
        | some secretIDs =>
          let q₂ := FindEventsQuery.FindEventsQueryExclusion ids secretIDs
          match p.dal.FindEvents s q₂ with
          | .error err =>
            some ⟨(none, some ("persistence: error looking up foreign events: " ++ err)), s,
              [(.FindEvents q₁, false), (.FindAccounts, false), (.FindEvents q₂, true)]⟩
          | .ok foreign =>
            some ⟨(some (foreignLoop foreign deletedIds), none), s,
              [(.FindEvents q₁, false), (.FindAccounts, false), (.FindEvents q₂, false)]⟩
    else
      some ⟨(some deletedIds, none), s, [(.FindEvents q₁, false)]⟩

/-! ## The two sources of the list `GetDeletedEvents` returns -/

/-- The identifiers `GetDeletedEvents` has collected when the labelled loop is
over: the known identifiers reported as no longer existing. -/
def knownGone {σ : Type} (p : persistenceLayer σ) (ids : List String) (s : σ) :
    List String :=
  match p.dal.FindEvents s (.FindEventsQueryByEventIDs ids) with
  | .error _ => []
  | .ok existing => outerLoop existing ids []

/-- The identifiers `GetDeletedEvents` appends in its second step: those of the
foreign events; there is no second step when `userID` is empty. -/
def foreignIDs {σ : Type} (p : persistenceLayer σ) (sched : List Nat)
    (ids : List String) (userID : String) (s : σ) : List String :=
  if userID ≠ "" then
    match p.dal.FindAccounts s with
    | .error _ => []
    | .ok accounts =>
      match hashUserIDForAccounts p.HashUserID sched userID accounts with
      | none => []
      | some secretIDs =>
        match p.dal.FindEvents s (.FindEventsQueryExclusion ids secretIDs) with
        | .error _ => []
        | .ok foreign => foreignLoop foreign []
  else []

/-! ## An in-memory store -/

/-- Whether the event carries one of the given hashed user identifiers. -/
def secretIn (secretIDs : List String) (e : Event) : Bool :=
  match e.SecretID with
  | some h => decide (h ∈ secretIDs)
  | none => false

/-- The contents of the in-memory store. -/
structure MemStore where
  accounts : List Account
  secrets : List Secret
  events : List Event
  deriving DecidableEq, Repr

/-- Modelled from the spec: the storage collaborator (the data access layer
behind `p.dal`, whose implementation is not part of these sources), as the
contract of section 6 describes it, over lists kept in insertion order. An
empty `since` means no lower bound; a non-empty one keeps the events whose
identifier does not sort before it. -/
def memDal : DataAccessLayer MemStore where
  FindAccount s accountID :=
    match s.accounts.find? (fun a => decide (a.AccountID = accountID) && !a.Retired) with
    | some a => .ok a
    | none => .error "account not found"
  FindAccounts s := .ok s.accounts
  FindSecret s secretID :=
    match s.secrets.find? (fun x => decide (x.SecretID = secretID)) with
    | some x => .ok x
    | none => .error "secret not found"
  CreateEvent s e := (none, { s with events := s.events ++ [e] })
  FindEvents s q :=
    match q with
    | .FindEventsQueryForSecretIDs secretIDs since =>
      .ok (s.events.filter (fun e =>
        secretIn secretIDs e && (decide (since = "") || !decide (e.EventID.toList < since.toList))))
    | .FindEventsQueryByEventIDs ids =>
      .ok (s.events.filter (fun e => decide (e.EventID ∈ ids)))
    | .FindEventsQueryExclusion eventIDs secretIDs =>
      .ok (s.events.filter (fun e =>
        secretIn secretIDs e && !decide (e.EventID ∈ eventIDs)))
  DeleteEvents s secretIDs :=
    (.ok (s.events.filter (secretIn secretIDs)).length,
      { s with events := s.events.filter (fun e => !secretIn secretIDs e) })

/-- Modelled from the spec: `Account.HashUserID` is declared outside these
sources; the spec asks of it only that it is a deterministic function of the
salt and the user identifier. This stand-in joins the two. -/
def joinHash (a : Account) (userID : String) : String :=
  a.UserSalt ++ "/" ++ userID

/-- The persistence layer over the in-memory store. -/
def memLayer : persistenceLayer MemStore where
  dal := memDal
  HashUserID := joinHash

/-- The account of the scenarios. -/
def acme : Account := { AccountID := "acme", UserSalt := "S1", Retired := false }

/-- A store with the account `acme` and a secret for alice under it. -/
def acmeStore : MemStore where
  accounts := [acme]
  secrets := [{ SecretID := "S1/alice", EncryptedSecret := "k" }]
  events := []

/-- The store of the reconciliation scenario: alice has the events `E1` and
`E2` under `acme`. -/
def driftStore : MemStore where
  accounts := [acme]
  secrets := [{ SecretID := "S1/alice", EncryptedSecret := "k" }]
  events :=
    [{ AccountID := "acme", SecretID := some "S1/alice", Payload := "p1", EventID := "E1" },
     { AccountID := "acme", SecretID := some "S1/alice", Payload := "p2", EventID := "E2" }]

/-- A second account. -/
def beta : Account := { AccountID := "beta", UserSalt := "S2", Retired := false }

/-- A store in which alice has events under two accounts, inserted in turn. -/
def twoAccountStore : MemStore where
  accounts := [acme, beta]
  secrets := [{ SecretID := "S1/alice", EncryptedSecret := "k" },
              { SecretID := "S2/alice", EncryptedSecret := "k" }]
  events :=
    [{ AccountID := "acme", SecretID := some "S1/alice", Payload := "p1", EventID := "E1" },
     { AccountID := "beta", SecretID := some "S2/alice", Payload := "p2", EventID := "E2" },
     { AccountID := "acme", SecretID := some "S1/alice", Payload := "p3", EventID := "E3" }]

/-- A data access layer whose every call fails. -/
def failingDal : DataAccessLayer Unit where
  FindAccount _ _ := .error "down"
  FindAccounts _ := .error "down"
  FindSecret _ _ := .error "down"
  CreateEvent _ _ := (some "down", ())
  FindEvents _ _ := .error "down"
  DeleteEvents _ _ := (.error "down", ())

/-- The persistence layer over the failing data access layer. -/
def failingLayer : persistenceLayer Unit where
  dal := failingDal
  HashUserID := joinHash

/-! ## Lemmas on the receive loop -/

theorem perm_get_cons_eraseIdx (l : List String) (k : Nat) (h : k < l.length) :
    l.Perm (l.get ⟨k, h⟩ :: l.eraseIdx k) := by
  induction l generalizing k with
  | nil => simp at h
  | cons x xs ih =>
    cases k with
    | zero => simp
    | succ k =>
      simp only [List.length_cons, Nat.add_lt_add_iff_right] at h
      have := ih k h
      simp only [List.get_eq_getElem, List.getElem_cons_succ, List.eraseIdx_cons_succ] at this ⊢
      exact (List.Perm.cons x this).trans (List.Perm.swap _ _ _)

theorem receiveLoop_returns (total : Nat) :
    ∀ (fuel : Nat) (sched : List Nat) (pending acc : List String),
      pending.length = fuel → 0 < fuel → acc.length + fuel = total →
      ∃ l, receiveLoop total fuel sched pending acc = some l ∧ l.Perm (acc ++ pending) := by
  intro fuel
  induction fuel with
  | zero => intro _ _ _ _ h; exact absurd h (Nat.lt_irrefl 0)
  | succ n ih =>
    intro sched pending acc hlen _ htot
    have hne : pending ≠ [] := by
      intro h; rw [h] at hlen; simp at hlen
    have hk : sched.headD 0 % pending.length < pending.length :=
      Nat.mod_lt _ (List.length_pos.mpr hne)
    have hperm := perm_get_cons_eraseIdx pending _ hk
    have hel : (pending.eraseIdx (sched.headD 0 % pending.length)).length = n := by
      rw [List.length_eraseIdx, if_pos hk, hlen]; rfl
    have hp2 : (acc ++ [pending.get ⟨_, hk⟩] ++ pending.eraseIdx (sched.headD 0 % pending.length)).Perm
        (acc ++ pending) := by
      rw [List.append_assoc]
      exact List.Perm.append_left acc hperm.symm
    unfold receiveLoop
    rw [dif_neg hne]
    simp only []
    by_cases hdone : (acc ++ [pending.get ⟨_, hk⟩]).length = total
    · rw [if_pos hdone]
      refine ⟨_, rfl, ?_⟩
      have hn0 : n = 0 := by
        simp only [List.length_append, List.length_singleton] at hdone
        omega
      have hnil : pending.eraseIdx (sched.headD 0 % pending.length) = [] := by
        apply List.eq_nil_of_length_eq_zero; rw [hel, hn0]
      rw [hnil, List.append_nil] at hp2
      exact hp2
    · rw [if_neg hdone]
      have hnpos : 0 < n := by
        simp only [List.length_append, List.length_singleton] at hdone
        omega
      obtain ⟨l, hl, hlp⟩ := ih sched.tail (pending.eraseIdx (sched.headD 0 % pending.length))
        (acc ++ [pending.get ⟨_, hk⟩]) hel hnpos (by
          simp only [List.length_append, List.length_singleton]; omega)
      exact ⟨l, hl, hlp.trans hp2⟩

theorem hashUserIDForAccounts_returns (H : Account → String → String) (sched : List Nat)
    (userID : String) (accounts : List Account) :
    ∃ l, hashUserIDForAccounts H sched userID accounts = some l ∧
      l.Perm (accounts.map (fun a => H a userID)) := by
  unfold hashUserIDForAccounts
  by_cases h : accounts.length = 0
  · rw [if_pos h]
    have : accounts = [] := List.eq_nil_of_length_eq_zero h
    subst this
    exact ⟨[], rfl, List.Perm.refl _⟩
  · rw [if_neg h]
    obtain ⟨l, hl, hp⟩ := receiveLoop_returns accounts.length accounts.length sched
      (accounts.map (fun a => H a userID)) [] (by simp) (Nat.pos_of_ne_zero h) (by simp)
    exact ⟨l, hl, by simpa using hp⟩

/-! ## Lemmas on the map -/

theorem ResultMap.get_set (m : ResultMap) (k k' : String) (v : List EventResult) :
    ResultMap.get (ResultMap.set m k v) k' = if k = k' then v else ResultMap.get m k' := by
  induction m with
  | nil => simp [ResultMap.set, ResultMap.get]
  | cons kv rest ih =>
    obtain ⟨a, b⟩ := kv
    by_cases hak : a = k
    · subst hak
      by_cases hk : a = k' <;> simp [ResultMap.set, ResultMap.get, hk]
    · by_cases hk : k = k'
      · subst hk
        simp [ResultMap.set, ResultMap.get, hak, ih]
      · by_cases hak' : a = k'
        · subst hak'
          simp [ResultMap.set, ResultMap.get, hak, hk]
        · simp [ResultMap.set, ResultMap.get, hak, hak', ih, hk]

theorem ResultMap.mem_keys_set (m : ResultMap) (k k' : String) (v : List EventResult) :
    k' ∈ ResultMap.keys (ResultMap.set m k v) ↔ k' = k ∨ k' ∈ ResultMap.keys m := by
  induction m with
  | nil => simp [ResultMap.set, ResultMap.keys]
  | cons kv rest ih =>
    obtain ⟨a, b⟩ := kv
    simp only [ResultMap.keys] at ih
    by_cases hak : a = k
    · subst hak
      simp [ResultMap.set, ResultMap.keys]
    · simp only [ResultMap.set, if_neg hak, ResultMap.keys, List.map_cons, List.mem_cons, ih]
      tauto

theorem ResultMap.nodup_keys_set (m : ResultMap) (k : String) (v : List EventResult)
    (h : (ResultMap.keys m).Nodup) : (ResultMap.keys (ResultMap.set m k v)).Nodup := by
  induction m with
  | nil => simp [ResultMap.set, ResultMap.keys]
  | cons kv rest ih =>
    obtain ⟨a, b⟩ := kv
    simp only [ResultMap.keys, List.map_cons, List.nodup_cons] at h
    by_cases hak : a = k
    · subst hak
      simpa [ResultMap.set, ResultMap.keys] using h
    · have hmem := ResultMap.mem_keys_set rest k a v
      have ih' := ih h.2
      simp only [ResultMap.keys] at hmem ih'
      simp only [ResultMap.set, if_neg hak, ResultMap.keys, List.map_cons, List.nodup_cons]
      refine ⟨?_, ih'⟩
      rw [hmem]
      rintro (h1 | h1)
      · exact hak h1
      · exact h.1 h1

theorem ResultMap.size_set (m : ResultMap) (k : String) (v : List EventResult) :
    ResultMap.size (ResultMap.set m k v) + (ResultMap.get m k).length
      = ResultMap.size m + v.length := by
  induction m with
  | nil => simp [ResultMap.set, ResultMap.get, ResultMap.size]
  | cons kv rest ih =>
    obtain ⟨a, b⟩ := kv
    simp only [ResultMap.size] at ih
    by_cases hak : a = k
    · subst hak
      simp [ResultMap.set, ResultMap.get, ResultMap.size]
      omega
    · simp only [ResultMap.set, if_neg hak, ResultMap.get, ResultMap.size, List.map_cons,
        List.sum_cons]
      omega

theorem ResultMap.sum_get_eq_size (m : ResultMap) (h : (ResultMap.keys m).Nodup) :
    ((ResultMap.keys m).map (fun k => (ResultMap.get m k).length)).sum = ResultMap.size m := by
  induction m with
  | nil => simp [ResultMap.keys, ResultMap.size]
  | cons kv rest ih =>
    obtain ⟨a, b⟩ := kv
    simp only [ResultMap.keys, List.map_cons, List.nodup_cons] at h
    have ih' := ih h.2
    simp only [ResultMap.keys, ResultMap.size] at ih' ⊢
    simp only [List.map_cons, List.sum_cons, ResultMap.get, if_true]
    rw [← ih']
    congr 1
    congr 1
    apply List.map_congr_left
    intro k hk
    have hne : a ≠ k := by
      rintro rfl
      exact h.1 hk
    simp [hne]

/-! ## Lemmas on the loops -/

theorem groupLoop_get (results : List Event) (out : ResultMap) (k : String) :
    ResultMap.get (groupLoop results out) k
      = ResultMap.get out k
        ++ (results.filter (fun e => decide (e.AccountID = k))).map toEventResult := by
  induction results generalizing out with
  | nil => simp [groupLoop]
  | cons m rest ih =>
    simp only [groupLoop, ih, ResultMap.get_set]
    by_cases hk : m.AccountID = k
    · simp [hk, List.filter_cons]
    · simp [hk, List.filter_cons]

theorem groupLoop_mem_keys (results : List Event) (out : ResultMap) (k : String) :
    k ∈ ResultMap.keys (groupLoop results out)
      ↔ k ∈ ResultMap.keys out ∨ ∃ e ∈ results, e.AccountID = k := by
  induction results generalizing out with
  | nil => simp [groupLoop]
  | cons m rest ih =>
    simp only [groupLoop, ih, ResultMap.mem_keys_set, List.mem_cons, exists_eq_or_imp]
    constructor
    · rintro ((h | h) | h)
      · exact Or.inr (Or.inl h.symm)
      · exact Or.inl h
      · exact Or.inr (Or.inr h)
    · rintro (h | h | h)
      · exact Or.inl (Or.inr h)
      · exact Or.inl (Or.inl h.symm)
      · exact Or.inr h

theorem groupLoop_nodup_keys (results : List Event) (out : ResultMap)
    (h : (ResultMap.keys out).Nodup) : (ResultMap.keys (groupLoop results out)).Nodup := by
  induction results generalizing out with
  | nil => simpa [groupLoop] using h
  | cons m rest ih =>
    simp only [groupLoop]
    exact ih _ (ResultMap.nodup_keys_set _ _ _ h)

theorem groupLoop_size (results : List Event) (out : ResultMap) :
    ResultMap.size (groupLoop results out) = ResultMap.size out + results.length := by
  induction results generalizing out with
  | nil => simp [groupLoop]
  | cons m rest ih =>
    simp only [groupLoop, ih, List.length_cons]
    have := ResultMap.size_set out m.AccountID (ResultMap.get out m.AccountID ++ [toEventResult m])
    simp only [List.length_append, List.length_singleton] at this
    omega

theorem continuesOuter_iff (id : String) (existing : List Event) :
    continuesOuter id existing = true ↔ ∃ ev ∈ existing, ev.EventID = id := by
  induction existing with
  | nil => simp [continuesOuter]
  | cons ev rest ih =>
    by_cases h : id = ev.EventID
    · simp [continuesOuter, h]
    · have h' : ¬ ev.EventID = id := fun e => h e.symm
      simp [continuesOuter, h, h', ih]

theorem outerLoop_eq_filter (existing : List Event) (ids deletedIds : List String) :
    outerLoop existing ids deletedIds
      = deletedIds ++ ids.filter (fun id => !continuesOuter id existing) := by
  induction ids generalizing deletedIds with
  | nil => simp [outerLoop]
  | cons id rest ih =>
    cases h : continuesOuter id existing <;> simp [outerLoop, h, ih]

theorem outerLoop_eq (existing : List Event) (ids deletedIds : List String) :
    outerLoop existing ids deletedIds
      = deletedIds ++ ids.filter (fun id => decide (id ∉ existing.map Event.EventID)) := by
  rw [outerLoop_eq_filter]
  congr 1
  apply List.filter_congr
  intro id _
  have hiff := continuesOuter_iff id existing
  cases h : continuesOuter id existing
  · have hmem : id ∉ existing.map Event.EventID := by
      intro hm
      obtain ⟨ev, hev, he⟩ := List.mem_map.mp hm
      have := hiff.mpr ⟨ev, hev, he⟩
      rw [h] at this
      exact Bool.noConfusion this
    simpa using hmem
  · obtain ⟨ev, hev, he⟩ := hiff.mp h
    have hmem : id ∈ existing.map Event.EventID := List.mem_map.mpr ⟨ev, hev, he⟩
    simpa using hmem

theorem foreignLoop_eq (foreign : List Event) (deletedIds : List String) :
    foreignLoop foreign deletedIds = deletedIds ++ foreign.map Event.EventID := by
  induction foreign generalizing deletedIds with
  | nil => simp [foreignLoop]
  | cons evt rest ih => simp [foreignLoop, ih]

theorem GetDeletedEvents_sources {σ : Type} (p : persistenceLayer σ) (sched : List Nat)
    (ids : List String) (userID : String) (s : σ) :
    ∃ r, p.GetDeletedEvents sched ids userID s = some r ∧
      ∀ l, r.value.1 = some l →
        l = knownGone p ids s ++ foreignIDs p sched ids userID s := by
  cases hex : p.dal.FindEvents s (.FindEventsQueryByEventIDs ids) with
  | error e =>
    simp only [persistenceLayer.GetDeletedEvents, hex]
    refine ⟨_, rfl, ?_⟩
    intro l h
    cases h
  | ok existing =>
    by_cases huser : userID = ""
    · subst huser
      simp only [persistenceLayer.GetDeletedEvents, hex, ne_eq, not_true_eq_false, if_false]
      refine ⟨_, rfl, ?_⟩
      intro l h
      cases h
      simp [knownGone, foreignIDs, hex]
    · cases hacc : p.dal.FindAccounts s with
      | error e =>
        simp only [persistenceLayer.GetDeletedEvents, hex, ne_eq, huser, not_false_eq_true,
          if_true, hacc]
        refine ⟨_, rfl, ?_⟩
        intro l h
        cases h
      | ok accounts =>
        obtain ⟨ls, hl, _⟩ :=
          hashUserIDForAccounts_returns p.HashUserID sched userID accounts
        cases hfor : p.dal.FindEvents s (.FindEventsQueryExclusion ids ls) with
        | error e =>
          simp only [persistenceLayer.GetDeletedEvents, hex, ne_eq, huser,
            not_false_eq_true, if_true, hacc, hl, hfor]
          refine ⟨_, rfl, ?_⟩
          intro l h
          cases h
        | ok foreign =>
          simp only [persistenceLayer.GetDeletedEvents, hex, ne_eq, huser,
            not_false_eq_true, if_true, hacc, hl, hfor]
          refine ⟨_, rfl, ?_⟩
          intro l h
          cases h
          simp [knownGone, foreignIDs, hex, huser, hacc, hl, hfor, foreignLoop_eq]

theorem knownGone_sublist {σ : Type} (p : persistenceLayer σ) (ids : List String) (s : σ) :
    (knownGone p ids s).Sublist ids := by
  unfold knownGone
  cases p.dal.FindEvents s (.FindEventsQueryByEventIDs ids) with
  | error e => exact List.nil_sublist _
  | ok existing =>
    simp only [outerLoop_eq, List.nil_append]
    exact List.filter_sublist _

theorem secretIn_perm {l₁ l₂ : List String} (h : l₁.Perm l₂) (e : Event) :
    secretIn l₁ e = secretIn l₂ e := by
  unfold secretIn
  cases e.SecretID with
  | none => rfl
  | some x => simp [h.mem_iff]

theorem memDal_DeleteEvents (s : MemStore) (ids : List String) (n : Nat) (s' : MemStore)
    (h : memLayer.dal.DeleteEvents s ids = (.ok n, s')) :
    s'.events = s.events.filter (fun e => !secretIn ids e) := by
  simp only [memLayer, memDal, Prod.mk.injEq] at h
  rw [← h.2]

theorem memDal_FindEvents (s : MemStore) (ids : List String) (since : String) :
    ∃ results, memLayer.dal.FindEvents s (.FindEventsQueryForSecretIDs ids since)
        = .ok results ∧
      ∀ e ∈ results, e ∈ s.events ∧ secretIn ids e = true := by
  refine ⟨_, rfl, ?_⟩
  intro e he
  simp only [List.mem_filter, Bool.and_eq_true] at he
  exact ⟨he.1, he.2.1⟩

/-! ## Theorems -/

/-- C7: for every user identifier, list of accounts and schedule of the
goroutines, `hashUserIDForAccounts` returns; the result is empty for an empty
list of accounts, and otherwise has as many elements as there are accounts and is
a permutation of the per-account hashes, so that it holds exactly the hashes of
the accounts, whatever the order of delivery. -/
theorem hashUserIDForAccounts_perm (HashUserID : Account → String → String)
    (sched : List Nat) (userID : String) (accounts : List Account) :
    hashUserIDForAccounts HashUserID sched userID [] = some [] ∧
    ∃ hashedUserIDs,
      hashUserIDForAccounts HashUserID sched userID accounts = some hashedUserIDs ∧
      hashedUserIDs.length = accounts.length ∧
      hashedUserIDs.Perm (accounts.map (fun account => HashUserID account userID)) ∧
      ∀ h, h ∈ hashedUserIDs ↔ ∃ account ∈ accounts, HashUserID account userID = h := by
  refine ⟨rfl, ?_⟩
  obtain ⟨l, hl, hp⟩ := hashUserIDForAccounts_returns HashUserID sched userID accounts
  refine ⟨l, hl, ?_, hp, ?_⟩
  · simpa using hp.length_eq
  · intro h
    rw [hp.mem_iff, List.mem_map]

/-- C8: when the account lookup and `FindEvents` succeed inside `Query`, the map
`Query` returns holds under every key the returned events of that account, in
the order storage returned them, each converted field by field; a key is
present exactly when some returned event has that account, no present key
holds an empty list, keys are not repeated, and the lists of all keys together
have as many elements as storage returned events. -/
theorem Query_groups_by_account {σ : Type} (p : persistenceLayer σ) (sched : List Nat)
    (query : Query) (s : σ) (accounts : List Account) (secretIDs : List String)
    (results : List Event)
    (hacc : p.dal.FindAccounts s = .ok accounts)
    (hids : hashUserIDForAccounts p.HashUserID sched query.UserID accounts = some secretIDs)
    (hres : p.dal.FindEvents s (.FindEventsQueryForSecretIDs secretIDs query.Since)
      = .ok results) :
    ∃ out : ResultMap,
      (p.Query sched query s).map (fun r => r.value) = some (some out, none) ∧
      (∀ k, ResultMap.get out k
        = (results.filter (fun e => decide (e.AccountID = k))).map
            (fun e => ({ AccountID := e.AccountID, Payload := e.Payload,
                         EventID := e.EventID } : EventResult))) ∧
      (∀ k, k ∈ ResultMap.keys out ↔ ∃ e ∈ results, e.AccountID = k) ∧
      (∀ k ∈ ResultMap.keys out, ResultMap.get out k ≠ []) ∧
      (ResultMap.keys out).Nodup ∧
      ((ResultMap.keys out).map (fun k => (ResultMap.get out k).length)).sum
        = results.length := by
  have hget : ∀ k, ResultMap.get (groupLoop results []) k
      = (results.filter (fun e => decide (e.AccountID = k))).map toEventResult := by
    intro k
    rw [groupLoop_get]
    simp [ResultMap.get]
  have hkeys : ∀ k, k ∈ ResultMap.keys (groupLoop results [])
      ↔ ∃ e ∈ results, e.AccountID = k := by
    intro k
    rw [groupLoop_mem_keys]
    simp [ResultMap.keys]
  have hnd : (ResultMap.keys (groupLoop results [])).Nodup :=
    groupLoop_nodup_keys results [] (by simp [ResultMap.keys])
  refine ⟨groupLoop results [], ?_, ?_, hkeys, ?_, hnd, ?_⟩
  · simp [persistenceLayer.Query, hacc, hids, hres]
  · intro k
    rw [hget]
    rfl
  · intro k hk
    obtain ⟨e, he, hek⟩ := (hkeys k).mp hk
    rw [hget]
    intro hnil
    have hmem : e ∈ results.filter (fun e => decide (e.AccountID = k)) := by
      simp [List.mem_filter, he, hek]
    have hlen := congrArg List.length hnil
    simp only [List.length_map, List.length_nil] at hlen
    rw [List.eq_nil_of_length_eq_zero hlen] at hmem
    simp at hmem
  · rw [ResultMap.sum_get_eq_size _ hnd, groupLoop_size]
    simp [ResultMap.size]

/-- C8 at a store whose events for alice alternate between two accounts. -/
theorem Query_groups_by_account_witness :
    ∃ out : ResultMap,
      (memLayer.Query [1] { UserID := "alice", Since := "" } twoAccountStore).map
        (fun r => r.value) = some (some out, none) ∧
      ResultMap.get out "acme"
        = [{ AccountID := "acme", Payload := "p1", EventID := "E1" },
           { AccountID := "acme", Payload := "p3", EventID := "E3" }] ∧
      ResultMap.get out "beta"
        = [{ AccountID := "beta", Payload := "p2", EventID := "E2" }] ∧
      ResultMap.get out "gamma" = [] ∧
      ((ResultMap.keys out).map (fun k => (ResultMap.get out k).length)).sum = 3 := by
  obtain ⟨out, h1, h2, _, _, _, h6⟩ :=
    Query_groups_by_account memLayer [1] { UserID := "alice", Since := "" } twoAccountStore
      [acme, beta] ["S2/alice", "S1/alice"] twoAccountStore.events rfl (by decide) rfl
  refine ⟨out, h1, ?_, ?_, ?_, h6⟩
  · rw [h2]; decide
  · rw [h2]; decide
  · rw [h2]; decide


/-- C3: for a non-empty user identifier and successful lookups,
`GetDeletedEvents(ids, userID)` returns the elements of `ids`, in order, whose
identifier matches no event returned for `FindEventsQueryByEventIDs(ids)`,
followed by the identifiers of the events returned for
`FindEventsQueryExclusion`, in the order storage returned them; the secret
identifiers of that query are the hashes of `userID` across all accounts. -/
theorem GetDeletedEvents_result {σ : Type} (p : persistenceLayer σ) (sched : List Nat)
    (ids : List String) (userID : String) (s : σ) (existing foreign : List Event)
    (accounts : List Account) (secretIDs : List String)
    (huser : userID ≠ "")
    (hex : p.dal.FindEvents s (.FindEventsQueryByEventIDs ids) = .ok existing)
    (hacc : p.dal.FindAccounts s = .ok accounts)
    (hids : hashUserIDForAccounts p.HashUserID sched userID accounts = some secretIDs)
    (hfor : p.dal.FindEvents s (.FindEventsQueryExclusion ids secretIDs) = .ok foreign) :
    (p.GetDeletedEvents sched ids userID s).map (fun r => r.value)
      = some (some (ids.filter (fun id => decide (id ∉ existing.map Event.EventID))
                ++ foreign.map Event.EventID), none) ∧
    secretIDs.Perm (accounts.map (fun account => p.HashUserID account userID)) := by
  constructor
  · simp only [persistenceLayer.GetDeletedEvents, hex, huser, ne_eq, not_false_eq_true,
      if_true, hacc, hids, hfor, Option.map_some', foreignLoop_eq, outerLoop_eq,
      List.nil_append]
  · obtain ⟨l, hl, hp⟩ := hashUserIDForAccounts_returns p.HashUserID sched userID accounts
    rw [hids] at hl
    cases hl
    exact hp

/-- C3 in the scenario of the spec: `E1` exists, `E-ghost` does not, and alice
also owns `E2`. -/
theorem GetDeletedEvents_result_witness :
    (memLayer.GetDeletedEvents [] ["E1", "E-ghost"] "alice" driftStore).map
      (fun r => r.value) = some (some ["E-ghost", "E2"], none) :=
  (GetDeletedEvents_result memLayer [] ["E1", "E-ghost"] "alice" driftStore
    [{ AccountID := "acme", SecretID := some "S1/alice", Payload := "p1", EventID := "E1" }]
    [{ AccountID := "acme", SecretID := some "S1/alice", Payload := "p2", EventID := "E2" }]
    [acme] ["S1/alice"] (by decide) rfl rfl (by decide) rfl).1

/-- C4: with an empty user identifier `GetDeletedEvents` makes one call on the
data access layer, the lookup of `ids` (so no account lookup and no lookup of
foreign events); whatever it returns holds only elements of `ids`; and when the
lookup succeeds it returns exactly the elements of `ids` that match no returned
event. -/
theorem GetDeletedEvents_without_user {σ : Type} (p : persistenceLayer σ)
    (sched : List Nat) (ids : List String) (s : σ) :
    ∃ r, p.GetDeletedEvents sched ids "" s = some r ∧
      r.calls.map Prod.fst = [.FindEvents (.FindEventsQueryByEventIDs ids)] ∧
      (∀ id ∈ r.value.1.getD [], id ∈ ids) ∧
      ∀ existing, p.dal.FindEvents s (.FindEventsQueryByEventIDs ids) = .ok existing →
        ∃ deletedIds, r.value = (some deletedIds, none) ∧
          ∀ id, id ∈ deletedIds ↔ id ∈ ids ∧ ∀ ev ∈ existing, ev.EventID ≠ id := by
  cases hex : p.dal.FindEvents s (.FindEventsQueryByEventIDs ids) with
  | error err =>
    have hr : p.GetDeletedEvents sched ids "" s
        = some ⟨(none, some ("persistence: error looking up events: " ++ err)), s,
            [(.FindEvents (.FindEventsQueryByEventIDs ids), true)]⟩ := by
      simp only [persistenceLayer.GetDeletedEvents, hex]
    refine ⟨_, hr, ?_, ?_, ?_⟩
    · rfl
    · intro id hid
      simp at hid
    · intro existing h
      cases h
  | ok existing =>
    have hr : p.GetDeletedEvents sched ids "" s
        = some ⟨(some (outerLoop existing ids []), none), s,
            [(.FindEvents (.FindEventsQueryByEventIDs ids), false)]⟩ := by
      simp only [persistenceLayer.GetDeletedEvents, hex, ne_eq, not_true_eq_false, if_false]
    refine ⟨_, hr, ?_, ?_, ?_⟩
    · rfl
    · intro id hid
      simp only [Option.getD_some, outerLoop_eq, List.nil_append, List.mem_filter] at hid
      exact hid.1
    · intro existing' h
      cases h
      refine ⟨_, rfl, ?_⟩
      intro id
      simp [outerLoop_eq, List.mem_filter]

/-- C4 at the store of the reconciliation scenario: `E2` is not reported. -/
theorem GetDeletedEvents_without_user_witness :
    ∃ r, memLayer.GetDeletedEvents [] ["E1", "E-ghost"] "" driftStore = some r ∧
      r.calls.map Prod.fst
        = [.FindEvents (.FindEventsQueryByEventIDs ["E1", "E-ghost"])] ∧
      r.value = (some ["E-ghost"], none) := by
  obtain ⟨r, hr, hcalls, _, h⟩ :=
    GetDeletedEvents_without_user memLayer [] ["E1", "E-ghost"] driftStore
  refine ⟨r, hr, hcalls, ?_⟩
  have hv : (memLayer.GetDeletedEvents [] ["E1", "E-ghost"] "" driftStore).map
      (fun r => r.value) = some (some ["E-ghost"], none) := by decide
  rw [hr] at hv
  simpa using hv


/-- C1: for a non-empty user identifier, when the active account is found and
`FindSecret` for its hash of the user identifier returns an error, `Insert`
returns a non-nil error, `CreateEvent` is not among the calls it made, and the
store is the one it started from. -/
theorem Insert_rejects_without_secret {σ : Type} (p : persistenceLayer σ)
    (eventID : Except String String) (userID accountID payload : String) (s : σ)
    (account : Account) (err : String)
    (huser : userID ≠ "")
    (hacc : p.dal.FindAccount s accountID = .ok account)
    (hsec : p.dal.FindSecret s (p.HashUserID account userID) = .error err) :
    (p.Insert eventID userID accountID payload s).value ≠ none ∧
    (∀ c ∈ (p.Insert eventID userID accountID payload s).calls,
      ∀ event, c.1 ≠ .CreateEvent event) ∧
    (p.Insert eventID userID accountID payload s).store = s := by
  cases eventID with
  | error e =>
    simp [persistenceLayer.Insert]
  | ok eid =>
    simp [persistenceLayer.Insert, hacc, huser, hsec]

/-- C1 in the scenario of the spec: bob has no secret under `acme`. -/
theorem Insert_rejects_without_secret_witness :
    (memLayer.Insert (.ok "E9") "bob" "acme" "p2" acmeStore).value ≠ none ∧
    (∀ c ∈ (memLayer.Insert (.ok "E9") "bob" "acme" "p2" acmeStore).calls,
      ∀ event, c.1 ≠ .CreateEvent event) ∧
    (memLayer.Insert (.ok "E9") "bob" "acme" "p2" acmeStore).store = acmeStore :=
  Insert_rejects_without_secret memLayer (.ok "E9") "bob" "acme" "p2" acmeStore acme
    "secret not found" (by decide) rfl rfl

/-- C5, as stated, fails: an anonymous `Insert` for an account that is not
known returns an error. -/
theorem anonymous_Insert_unknown_account_fails :
    ¬ ((memLayer.Insert (.ok "E9") "" "nope" "p1" acmeStore).value = none) := by
  decide

/-- C5, amended: `Insert` with an empty user identifier never calls `FindSecret`,
does the same whatever `FindSecret` would answer, hands to `CreateEvent` only an
event with no secret identifier and with the given account identifier and
payload, and returns nil whenever the event identifier was generated, the
active account was found and `CreateEvent` returned nil. -/
theorem Insert_anonymous {σ : Type} (p : persistenceLayer σ)
    (eventID : Except String String) (accountID payload : String) (s : σ) :
    (∀ c ∈ (p.Insert eventID "" accountID payload s).calls,
      ∀ secretID, c.1 ≠ .FindSecret secretID) ∧
    (∀ findSecret : σ → String → Except String Secret,
      ({ p with dal := { p.dal with FindSecret := findSecret } } : persistenceLayer σ).Insert
          eventID "" accountID payload s
        = p.Insert eventID "" accountID payload s) ∧
    (∀ c ∈ (p.Insert eventID "" accountID payload s).calls, ∀ event,
      c.1 = .CreateEvent event →
        event.SecretID = none ∧ event.AccountID = accountID ∧ event.Payload = payload) ∧
    (∀ id account, eventID = .ok id → p.dal.FindAccount s accountID = .ok account →
      (p.dal.CreateEvent s
        { AccountID := accountID, SecretID := none, Payload := payload, EventID := id }).1
        = none →
      (p.Insert eventID "" accountID payload s).value = none ∧
      (.CreateEvent
          { AccountID := accountID, SecretID := none, Payload := payload, EventID := id },
        false) ∈ (p.Insert eventID "" accountID payload s).calls) := by
  cases eventID with
  | error e =>
    refine ⟨?_, ?_, ?_, ?_⟩
    · simp [persistenceLayer.Insert]
    · intro fs; rfl
    · simp [persistenceLayer.Insert]
    · intro id account h; cases h
  | ok eid =>
    cases hacc : p.dal.FindAccount s accountID with
    | error e =>
      refine ⟨?_, ?_, ?_, ?_⟩
      · simp [persistenceLayer.Insert, hacc]
      · intro fs; simp [persistenceLayer.Insert, hacc]
      · simp [persistenceLayer.Insert, hacc]
      · intro id account _ h; cases h
    | ok account =>
      rcases hc : p.dal.CreateEvent s
        { AccountID := accountID, SecretID := none, Payload := payload, EventID := eid }
        with ⟨e, s'⟩
      cases e with
      | none =>
        refine ⟨?_, ?_, ?_, ?_⟩
        · simp [persistenceLayer.Insert, hacc, hc]
        · intro fs; simp [persistenceLayer.Insert, hacc, hc]
        · simp [persistenceLayer.Insert, hacc, hc]
        · intro id account' hid _ _
          cases hid
          simp [persistenceLayer.Insert, hacc, hc]
      | some e =>
        refine ⟨?_, ?_, ?_, ?_⟩
        · simp [persistenceLayer.Insert, hacc, hc]
        · intro fs; simp [persistenceLayer.Insert, hacc, hc]
        · simp [persistenceLayer.Insert, hacc, hc]
        · intro id account' hid _ hnone
          cases hid
          rw [hc] at hnone
          cases hnone

/-- C5, amended, at the store of the scenario: the anonymous event is stored
under `acme` with no secret identifier. -/
theorem Insert_anonymous_witness :
    (memLayer.Insert (.ok "E9") "" "acme" "p1" acmeStore).value = none ∧
    (.CreateEvent
        { AccountID := "acme", SecretID := none, Payload := "p1", EventID := "E9" },
      false) ∈ (memLayer.Insert (.ok "E9") "" "acme" "p1" acmeStore).calls :=
  (Insert_anonymous memLayer (.ok "E9") "acme" "p1" acmeStore).2.2.2 "E9" acme rfl rfl rfl


/-- C10: in each of `Insert`, `Query`, `Purge` and `GetDeletedEvents` the flag
logged with a call tells whether that call returned an error at the store the
operation started from; the last three operations return; and whenever some
call an operation made returned an error, the operation returns a non-nil
error, and `Query` and `GetDeletedEvents` return a nil result with it. -/
theorem storage_failure_is_surfaced {σ : Type} (p : persistenceLayer σ) :
    (∀ eventID userID accountID payload s,
      (∀ c ∈ (p.Insert eventID userID accountID payload s).calls,
        c.2 = p.dal.failed s c.1) ∧
      ((∃ c ∈ (p.Insert eventID userID accountID payload s).calls, c.2 = true) →
        (p.Insert eventID userID accountID payload s).value ≠ none)) ∧
    (∀ sched query s, ∃ r, p.Query sched query s = some r ∧
      (∀ c ∈ r.calls, c.2 = p.dal.failed s c.1) ∧
      ((∃ c ∈ r.calls, c.2 = true) → r.value.1 = none ∧ r.value.2 ≠ none)) ∧
    (∀ sched userID s, ∃ r, p.Purge sched userID s = some r ∧
      (∀ c ∈ r.calls, c.2 = p.dal.failed s c.1) ∧
      ((∃ c ∈ r.calls, c.2 = true) → r.value ≠ none)) ∧
    (∀ sched ids userID s, ∃ r, p.GetDeletedEvents sched ids userID s = some r ∧
      (∀ c ∈ r.calls, c.2 = p.dal.failed s c.1) ∧
      ((∃ c ∈ r.calls, c.2 = true) → r.value.1 = none ∧ r.value.2 ≠ none)) := by
  refine ⟨?_, ?_, ?_, ?_⟩
  · intro eventID userID accountID payload s
    cases eventID with
    | error e => simp [persistenceLayer.Insert]
    | ok eid =>
      cases hacc : p.dal.FindAccount s accountID with
      | error e => simp [persistenceLayer.Insert, hacc, DataAccessLayer.failed]
      | ok account =>
        by_cases huser : userID = ""
        · subst huser
          rcases hc : p.dal.CreateEvent s
            { AccountID := accountID, SecretID := none, Payload := payload, EventID := eid }
            with ⟨e, s'⟩
          cases e <;> simp [persistenceLayer.Insert, hacc, hc, DataAccessLayer.failed]
        · cases hsec : p.dal.FindSecret s (p.HashUserID account userID) with
          | error e =>
            simp [persistenceLayer.Insert, hacc, huser, hsec, DataAccessLayer.failed]
          | ok secret =>
            rcases hc : p.dal.CreateEvent s
              { AccountID := accountID, SecretID := some (p.HashUserID account userID),
                Payload := payload, EventID := eid } with ⟨e, s'⟩
            cases e <;>
              simp [persistenceLayer.Insert, hacc, huser, hsec, hc, DataAccessLayer.failed]
  · intro sched query s
    cases hacc : p.dal.FindAccounts s with
    | error e =>
      simp only [persistenceLayer.Query, hacc]
      refine ⟨_, rfl, ?_, ?_⟩
      · simp only [List.forall_mem_cons]
        simp [DataAccessLayer.failed, hacc]
      · simp
    | ok accounts =>
      obtain ⟨l, hl, _⟩ :=
        hashUserIDForAccounts_returns p.HashUserID sched query.UserID accounts
      cases hres : p.dal.FindEvents s (.FindEventsQueryForSecretIDs l query.Since) with
      | error e =>
        simp only [persistenceLayer.Query, hacc, hl, hres]
        refine ⟨_, rfl, ?_, ?_⟩
        · simp only [List.forall_mem_cons]
          simp [DataAccessLayer.failed, hacc, hres]
        · simp
      | ok results =>
        simp only [persistenceLayer.Query, hacc, hl, hres]
        refine ⟨_, rfl, ?_, ?_⟩
        · simp only [List.forall_mem_cons]
          simp [DataAccessLayer.failed, hacc, hres]
        · simp
  · intro sched userID s
    cases hacc : p.dal.FindAccounts s with
    | error e =>
      simp only [persistenceLayer.Purge, hacc]
      refine ⟨_, rfl, ?_, ?_⟩
      · simp only [List.forall_mem_cons]
        simp [DataAccessLayer.failed, hacc]
      · simp
    | ok accounts =>
      obtain ⟨l, hl, _⟩ := hashUserIDForAccounts_returns p.HashUserID sched userID accounts
      rcases hdel : p.dal.DeleteEvents s l with ⟨res, s'⟩
      cases res with
      | error e =>
        simp only [persistenceLayer.Purge, hacc, hl, hdel]
        refine ⟨_, rfl, ?_, ?_⟩
        · simp only [List.forall_mem_cons]
          simp [DataAccessLayer.failed, hacc, hdel]
        · simp
      | ok n =>
        simp only [persistenceLayer.Purge, hacc, hl, hdel]
        refine ⟨_, rfl, ?_, ?_⟩
        · simp only [List.forall_mem_cons]
          simp [DataAccessLayer.failed, hacc, hdel]
        · simp
  · intro sched ids userID s
    cases hex : p.dal.FindEvents s (.FindEventsQueryByEventIDs ids) with
    | error e =>
      simp only [persistenceLayer.GetDeletedEvents, hex]
      refine ⟨_, rfl, ?_, ?_⟩
      · simp only [List.forall_mem_cons]
        simp [DataAccessLayer.failed, hex]
      · simp
    | ok existing =>
      by_cases huser : userID = ""
      · subst huser
        simp only [persistenceLayer.GetDeletedEvents, hex, ne_eq, not_true_eq_false, if_false]
        refine ⟨_, rfl, ?_, ?_⟩
        · simp only [List.forall_mem_cons]
          simp [DataAccessLayer.failed, hex]
        · simp
      · cases hacc : p.dal.FindAccounts s with
        | error e =>
          simp only [persistenceLayer.GetDeletedEvents, hex, ne_eq, huser, not_false_eq_true,
            if_true, hacc]
          refine ⟨_, rfl, ?_, ?_⟩
          · simp only [List.forall_mem_cons]
            simp [DataAccessLayer.failed, hex, hacc]
          · simp
        | ok accounts =>
          obtain ⟨l, hl, _⟩ :=
            hashUserIDForAccounts_returns p.HashUserID sched userID accounts
          cases hfor : p.dal.FindEvents s (.FindEventsQueryExclusion ids l) with
          | error e =>
            simp only [persistenceLayer.GetDeletedEvents, hex, ne_eq, huser,
              not_false_eq_true, if_true, hacc, hl, hfor]
            refine ⟨_, rfl, ?_, ?_⟩
            · simp only [List.forall_mem_cons]
              simp [DataAccessLayer.failed, hex, hacc, hfor]
            · simp
          | ok foreign =>
            simp only [persistenceLayer.GetDeletedEvents, hex, ne_eq, huser,
              not_false_eq_true, if_true, hacc, hl, hfor]
            refine ⟨_, rfl, ?_, ?_⟩
            · simp only [List.forall_mem_cons]
              simp [DataAccessLayer.failed, hex, hacc, hfor]
            · simp

/-- C10 over a data access layer whose every call fails: each operation stops at
its first call and returns an error, with a nil result where it has one. -/
theorem storage_failure_is_surfaced_witness :
    (failingLayer.Insert (.ok "E9") "alice" "acme" "p1" ()).value ≠ none ∧
    (∃ r, failingLayer.Query [] { UserID := "alice", Since := "" } () = some r ∧
      r.value.1 = none ∧ r.value.2 ≠ none) ∧
    (∃ r, failingLayer.Purge [] "alice" () = some r ∧ r.value ≠ none) ∧
    (∃ r, failingLayer.GetDeletedEvents [] ["E1"] "alice" () = some r ∧
      r.value.1 = none ∧ r.value.2 ≠ none) := by
  obtain ⟨hI, hQ, hP, hG⟩ := storage_failure_is_surfaced failingLayer
  refine ⟨?_, ?_, ?_, ?_⟩
  · exact (hI (.ok "E9") "alice" "acme" "p1" ()).2
      ⟨(.FindAccount "acme", true), by decide, rfl⟩
  · obtain ⟨r, hr, _, h⟩ := hQ [] { UserID := "alice", Since := "" } ()
    refine ⟨r, hr, h ⟨(.FindAccounts, true), ?_, rfl⟩⟩
    have h0 : failingLayer.Query [] { UserID := "alice", Since := "" } ()
        = some ⟨(none, some ("persistence: error looking up all accounts: " ++ "down")), (),
            [(.FindAccounts, true)]⟩ := rfl
    rw [h0] at hr
    cases hr
    simp
  · obtain ⟨r, hr, _, h⟩ := hP [] "alice" ()
    refine ⟨r, hr, h ⟨(.FindAccounts, true), ?_, rfl⟩⟩
    have h0 : failingLayer.Purge [] "alice" ()
        = some ⟨some ("persistence: error retrieving available accounts: " ++ "down"), (),
            [(.FindAccounts, true)]⟩ := rfl
    rw [h0] at hr
    cases hr
    simp
  · obtain ⟨r, hr, _, h⟩ := hG [] ["E1"] "alice" ()
    refine ⟨r, hr, h ⟨(.FindEvents (.FindEventsQueryByEventIDs ["E1"]), true), ?_, rfl⟩⟩
    have h0 : failingLayer.GetDeletedEvents [] ["E1"] "alice" ()
        = some ⟨(none, some ("persistence: error looking up events: " ++ "down")), (),
            [(.FindEvents (.FindEventsQueryByEventIDs ["E1"]), true)]⟩ := rfl
    rw [h0] at hr
    cases hr
    simp


/-- C9, as stated, fails: a known identifier given twice and no longer existing
is reported twice, although no foreign event is appended. -/
theorem repeated_known_id_reported_twice :
    ¬ (∀ l, (memLayer.GetDeletedEvents [] ["X", "X"] "" acmeStore).map
          (fun r => r.value.1) = some (some l) →
        ∀ id, 1 < l.count id →
          id ∈ knownGone memLayer ["X", "X"] acmeStore ∧
          id ∈ foreignIDs memLayer [] ["X", "X"] "" acmeStore) := by
  intro h
  have h2 := (h ["X", "X"] (by decide) "X" (by decide)).2
  exact absurd h2 (by decide)

/-- C9, amended: `GetDeletedEvents` returns, and a list it returns is the known
identifiers reported as no longer existing followed by the identifiers of the
foreign events; when `ids` has no duplicates and the foreign identifiers are
pairwise distinct, an identifier that occurs more than once in the list
occurs in both sources. -/
theorem GetDeletedEvents_duplicates {σ : Type} (p : persistenceLayer σ) (sched : List Nat)
    (ids : List String) (userID : String) (s : σ)
    (hids : ids.Nodup) (hforeign : (foreignIDs p sched ids userID s).Nodup) :
    ∃ r, p.GetDeletedEvents sched ids userID s = some r ∧
      ∀ l, r.value.1 = some l →
        l = knownGone p ids s ++ foreignIDs p sched ids userID s ∧
        ∀ id, 1 < l.count id →
          id ∈ knownGone p ids s ∧ id ∈ foreignIDs p sched ids userID s := by
  obtain ⟨r, hr, hsrc⟩ := GetDeletedEvents_sources p sched ids userID s
  refine ⟨r, hr, ?_⟩
  intro l hl
  have hl' := hsrc l hl
  refine ⟨hl', ?_⟩
  intro id hcount
  have hk : (knownGone p ids s).Nodup := (knownGone_sublist p ids s).nodup hids
  have h1 := List.nodup_iff_count_le_one.mp hk id
  have h2 := List.nodup_iff_count_le_one.mp hforeign id
  rw [hl', List.count_append] at hcount
  constructor
  · apply List.count_pos_iff.mp
    omega
  · apply List.count_pos_iff.mp
    omega

/-- C9, amended, at a store where the exclusion of known identifiers is what
keeps the two sources apart: nothing is reported twice. -/
theorem GetDeletedEvents_duplicates_witness :
    ∃ r, memLayer.GetDeletedEvents [] ["E1", "E-ghost"] "alice" driftStore = some r ∧
      ∀ l, r.value.1 = some l →
        l = knownGone memLayer ["E1", "E-ghost"] driftStore
              ++ foreignIDs memLayer [] ["E1", "E-ghost"] "alice" driftStore ∧
        ∀ id, 1 < l.count id →
          id ∈ knownGone memLayer ["E1", "E-ghost"] driftStore ∧
          id ∈ foreignIDs memLayer [] ["E1", "E-ghost"] "alice" driftStore :=
  GetDeletedEvents_duplicates memLayer [] ["E1", "E-ghost"] "alice" driftStore
    (by decide) (by decide)

/-- C2: over a store in which `DeleteEvents` removes exactly the events carrying
one of the given secret identifiers and `FindEvents` for secret identifiers
returns only stored events carrying one of them, and with the account list the
same at both calls, `Query` for a user after a `Purge` for that user that
returned nil returns an empty map, for every lower bound and whatever the
schedules of the goroutines in the two calls. -/
theorem Purge_then_Query_empty {σ : Type} (p : persistenceLayer σ) (events : σ → List Event)
    (sched₁ sched₂ : List Nat) (userID since : String) (s : σ)
    (r : Ret σ (Option String))
    (hdel : ∀ s ids n s', p.dal.DeleteEvents s ids = (.ok n, s') →
      events s' = (events s).filter (fun e => !secretIn ids e))
    (hfind : ∀ s ids since, ∃ results,
      p.dal.FindEvents s (.FindEventsQueryForSecretIDs ids since) = .ok results ∧
      ∀ e ∈ results, e ∈ events s ∧ secretIn ids e = true)
    (hpurge : p.Purge sched₁ userID s = some r) (hnil : r.value = none)
    (hacc : p.dal.FindAccounts r.store = p.dal.FindAccounts s) :
    (p.Query sched₂ { UserID := userID, Since := since } r.store).map (fun r => r.value)
      = some (some [], none) := by
  cases hacc₁ : p.dal.FindAccounts s with
  | error e =>
    simp only [persistenceLayer.Purge, hacc₁, Option.some.injEq] at hpurge
    rw [← hpurge] at hnil
    cases hnil
  | ok accounts =>
    obtain ⟨l₁, hl₁, hp₁⟩ := hashUserIDForAccounts_returns p.HashUserID sched₁ userID accounts
    obtain ⟨l₂, hl₂, hp₂⟩ := hashUserIDForAccounts_returns p.HashUserID sched₂ userID accounts
    rcases hd : p.dal.DeleteEvents s l₁ with ⟨res, s'⟩
    cases res with
    | error e =>
      simp only [persistenceLayer.Purge, hacc₁, hl₁, hd, Option.some.injEq] at hpurge
      rw [← hpurge] at hnil
      cases hnil
    | ok n =>
      simp only [persistenceLayer.Purge, hacc₁, hl₁, hd, Option.some.injEq] at hpurge
      subst hpurge
      simp only at hacc
      have hev := hdel s l₁ n s' hd
      obtain ⟨results, hres, hall⟩ := hfind s' l₂ since
      have hnil' : results = [] := by
        apply List.eq_nil_iff_forall_not_mem.mpr
        intro e he
        obtain ⟨hmem, hsec⟩ := hall e he
        rw [hev, List.mem_filter] at hmem
        rw [secretIn_perm (hp₂.trans hp₁.symm) e] at hsec
        rw [hsec] at hmem
        exact absurd hmem.2 (by decide)
      subst hnil'
      simp [persistenceLayer.Query, hacc, hacc₁, hl₂, hres, groupLoop]

/-- C2 at a store where alice has events under two accounts: the hashes are
delivered in one order to `Purge` and in the other to `Query`. -/
theorem Purge_then_Query_empty_witness :
    (memLayer.Query [0] { UserID := "alice", Since := "" }
        { twoAccountStore with events := [] }).map (fun r => r.value)
      = some (some [], none) :=
  Purge_then_Query_empty memLayer MemStore.events [1] [0] "alice" "" twoAccountStore
    ⟨none, { twoAccountStore with events := [] },
      [(.FindAccounts, false), (.DeleteEvents ["S2/alice", "S1/alice"], false)]⟩
    memDal_DeleteEvents memDal_FindEvents rfl rfl rfl


/-- C6: over a store in which `CreateEvent` returns nil, appends the event and
leaves the account list alone, and `FindEvents` for secret identifiers with no
lower bound returns the stored events carrying one of them in stored order: for
a non-empty user identifier, an active account that is in the list of all
accounts and whose secret for the user exists, `Insert` returns nil, and the
following `Query` returns a map holding under `accountID` the result with the
given payload and the generated event identifier; when the store held no event
for the user before, the map is exactly that one key with that one result. -/
theorem Insert_then_Query {σ : Type} (p : persistenceLayer σ) (events : σ → List Event)
    (sched : List Nat) (userID accountID payload id : String) (s : σ)
    (account : Account) (accounts : List Account) (secret : Secret)
    (huser : userID ≠ "")
    (hacct : p.dal.FindAccount s accountID = .ok account)
    (hall : p.dal.FindAccounts s = .ok accounts) (hmem : account ∈ accounts)
    (hsec : p.dal.FindSecret s (p.HashUserID account userID) = .ok secret)
    (hcreate : ∀ s e, (p.dal.CreateEvent s e).1 = none ∧
      events (p.dal.CreateEvent s e).2 = events s ++ [e] ∧
      p.dal.FindAccounts (p.dal.CreateEvent s e).2 = p.dal.FindAccounts s)
    (hfind : ∀ s ids, p.dal.FindEvents s (.FindEventsQueryForSecretIDs ids "")
      = .ok ((events s).filter (secretIn ids))) :
    (p.Insert (.ok id) userID accountID payload s).value = none ∧
    ∃ out : ResultMap,
      (p.Query sched { UserID := userID, Since := "" }
          (p.Insert (.ok id) userID accountID payload s).store).map (fun r => r.value)
        = some (some out, none) ∧
      ({ AccountID := accountID, Payload := payload, EventID := id } : EventResult)
        ∈ ResultMap.get out accountID ∧
      ((∀ e ∈ events s,
          secretIn (accounts.map (fun a => p.HashUserID a userID)) e = false) →
        out = [(accountID,
                [{ AccountID := accountID, Payload := payload, EventID := id }])]) := by
  have hc := hcreate s (Event.mk accountID (some (p.HashUserID account userID)) payload id)
  rcases hpair : p.dal.CreateEvent s
    (Event.mk accountID (some (p.HashUserID account userID)) payload id) with ⟨e, s'⟩
  rw [hpair] at hc
  obtain ⟨he, hev, hacc'⟩ := hc
  simp only at he hev hacc'
  subst he
  have hins : p.Insert (.ok id) userID accountID payload s
      = ⟨none, s', [(.FindAccount accountID, false),
          (.FindSecret (p.HashUserID account userID), false),
          (.CreateEvent (Event.mk accountID (some (p.HashUserID account userID))
              payload id), false)]⟩ := by
    simp [persistenceLayer.Insert, hacct, huser, hsec, hpair]
  rw [hins]
  refine ⟨rfl, ?_⟩
  simp only
  obtain ⟨l, hl, hp⟩ := hashUserIDForAccounts_returns p.HashUserID sched userID accounts
  have hin : secretIn l
      (Event.mk accountID (some (p.HashUserID account userID)) payload id) = true := by
    simp only [secretIn, decide_eq_true_eq]
    rw [hp.mem_iff]
    exact List.mem_map.mpr ⟨account, hmem, rfl⟩
  have hres := hfind s' l
  rw [hev, List.filter_append] at hres
  have hlast : List.filter (secretIn l)
      [Event.mk accountID (some (p.HashUserID account userID)) payload id]
      = [Event.mk accountID (some (p.HashUserID account userID)) payload id] := by
    simp [List.filter_cons, hin]
  rw [hlast] at hres
  have hq : (p.Query sched { UserID := userID, Since := "" } s').map (fun r => r.value)
      = some (some (groupLoop ((events s).filter (secretIn l) ++
          [Event.mk accountID (some (p.HashUserID account userID)) payload id]) []),
          none) := by
    simp [persistenceLayer.Query, hacc', hall, hl, hres]
  refine ⟨_, hq, ?_, ?_⟩
  · rw [groupLoop_get]
    simp [ResultMap.get, toEventResult]
  · intro hnone
    have hempty : (events s).filter (secretIn l) = [] := by
      apply List.eq_nil_iff_forall_not_mem.mpr
      intro e hmem'
      rw [List.mem_filter] at hmem'
      have := hnone e hmem'.1
      rw [← secretIn_perm hp e, hmem'.2] at this
      exact Bool.noConfusion this
    rw [hempty]
    simp [groupLoop, ResultMap.get, ResultMap.set, toEventResult]

/-- C6 in the scenario of the spec: alice has a secret under `acme` and no
event yet; the event `E1` with payload `p1` comes back alone under `acme`. -/
theorem Insert_then_Query_witness :
    (memLayer.Insert (.ok "E1") "alice" "acme" "p1" acmeStore).value = none ∧
    (memLayer.Query [] { UserID := "alice", Since := "" }
        (memLayer.Insert (.ok "E1") "alice" "acme" "p1" acmeStore).store).map
        (fun r => r.value)
      = some (some [("acme", [{ AccountID := "acme", Payload := "p1", EventID := "E1" }])],
          none) := by
  obtain ⟨h1, out, h2, _, h4⟩ :=
    Insert_then_Query memLayer MemStore.events [] "alice" "acme" "p1" "E1" acmeStore acme
      [acme] { SecretID := "S1/alice", EncryptedSecret := "k" } (by decide) rfl rfl
      (by decide) rfl (fun _ _ => ⟨rfl, rfl, rfl⟩) (fun _ _ => by
        simp [memLayer, memDal])
  refine ⟨h1, ?_⟩
  rw [h2, h4 (by decide)]

end Persistence
